import Mathlib

/-!
Shallow embedding of `sunslicepy/slice.py`: the classes `GenericSlice`,
`PointsSlice`, `BresenhamSlice`, `DDASlice`, `CustomSlice` and the module
function `running_difference`, together with the rasterizer functions
`bresenham_line` and `dda_line` imported from `sunslicepy/rasterize.py`
(that file is not among the sources at hand, so the two rasterizers are
modelled from the specification).

Conventions:
* python floats are `ℚ`;
* raster intensity values are kept abstract, carried by a type parameter `α`
  wherever the source only moves them; the two post-processing transforms,
  which do arithmetic, are modelled over `ℚ`;
* a python exception is an `Except PyErr` value;
* numpy arrays are lists; numpy integer indexing, including the wrap-around
  behaviour of negative indices, is `np_getIdx`.
-/

/-- The exception classes distinguished by the model.  `usageError` is the
generic `Exception(...)` raised for a bad smoothing window;
`raiseNotImplemented` models `raise NotImplemented`, which in python surfaces
as a `TypeError` because the constant `NotImplemented` is not an exception;
`missingArgument` is the `TypeError` python raises at a call site when a
required positional argument is omitted. -/
inductive PyErr where
  | indexError
  | usageError
  | raiseNotImplemented
  | missingArgument
deriving DecidableEq

/-- Computable floor of a rational: with euclidean integer division,
`q.num / q.den` agrees with `⌊q⌋` (`Rat.floor_def`). -/
def ratFloor (q : ℚ) : ℤ := q.num / (q.den : ℤ)

/-- Python `int(f)` applied to a float: truncation toward zero. -/
def pyTrunc (q : ℚ) : ℤ :=
  if q.num < 0 then -((-q.num) / (q.den : ℤ)) else q.num / (q.den : ℤ)

/-- numpy `np.round`: round half to even.  `f` is the floor of `q`; the
fractional part `q - f` is compared with `1/2` by comparing
`2*(q.num - f*q.den)` against `q.den`. -/
def npRound (q : ℚ) : ℤ :=
  let f := ratFloor q
  let r2 := 2 * (q.num - f * (q.den : ℤ))
  if r2 < (q.den : ℤ) then f
  else if (q.den : ℤ) < r2 then f + 1
  else if f % 2 = 0 then f else f + 1

/-- numpy indexing of a one-dimensional array by a (possibly negative)
integer: indices in `[0, n)` read directly, indices in `[-n, 0)` wrap around
to the end of the array, anything else raises `IndexError`. -/
def np_getIdx {α : Type} (l : List α) (i : ℤ) : Except PyErr α :=
  if h : 0 ≤ i ∧ i < (l.length : ℤ) then .ok (l.get ⟨i.toNat, by omega⟩)
  else if h2 : -(l.length : ℤ) ≤ i ∧ i < 0 then .ok (l.get ⟨(i + l.length).toNat, by omega⟩)
  else .error .indexError

/-- Equality of exception-carrying results is decidable whenever both
components are. -/
instance {ε α : Type} [DecidableEq ε] [DecidableEq α] : DecidableEq (Except ε α) :=
  fun x y =>
    match x, y with
    | .ok a, .ok b =>
      if h : a = b then isTrue (by rw [h]) else isFalse (by intro hh; cases hh; exact h rfl)
    | .error e, .error f =>
      if h : e = f then isTrue (by rw [h]) else isFalse (by intro hh; cases hh; exact h rfl)
    | .ok _, .error _ => isFalse (by intro hh; cases hh)
    | .error _, .ok _ => isFalse (by intro hh; cases hh)

lemma except_bind_ok {ε α β : Type} (a : α) (g : α → Except ε β) :
    (Except.ok a).bind g = g a := rfl

lemma except_bind_error {ε α β : Type} (e : ε) (g : α → Except ε β) :
    (Except.error e).bind g = .error e := rfl

/-- Reading `raster[y][x]`: the row index comes first, exactly as in
`intensity_cube[f][yi][xi]` in the source. -/
def np_get2 {α : Type} (raster : List (List α)) (y x : ℤ) : Except PyErr α :=
  (np_getIdx raster y).bind fun row => np_getIdx row x

/-- Sequencing of a python `for` loop that produces one value per element and
stops at the first raised exception. -/
def exceptMap {α β : Type} (g : α → Except PyErr β) : List α → Except PyErr (List β)
  | [] => .ok []
  | a :: as =>
    (g a).bind fun b =>
      (exceptMap g as).bind fun bs => .ok (b :: bs)

/-- Endpoint component conversion of `BresenhamSlice._get_slice` and
`DDASlice._get_slice` (`np.abs(np.array([[int(xi.value) ...]]).T)`):
truncation toward zero followed by the absolute value. -/
def line_anchor_px (v : ℚ) : ℤ := ((pyTrunc v).natAbs : ℤ)

/-- numpy `np.round` as a float-valued function: the source rounds a float
array and converts the entries with `int` afterwards. -/
def npRoundF (q : ℚ) : ℚ := ((npRound q : ℤ) : ℚ)

/-- The per-anchor pass `coords[i] = int(np.round(coords[i][0])),
int(np.round(coords[i][1]))` of the line slices, acting on one (already
integer) coordinate pair. -/
def line_round_step (c : ℤ × ℤ) : ℤ × ℤ := (pyTrunc (npRoundF c.1), pyTrunc (npRoundF c.2))

/-- Anchor conversion of `PointsSlice._get_slice`: `np.round` first, then
conversion with `int(...)`. -/
def points_anchor_px (v : ℚ) : ℤ := pyTrunc (npRoundF v)

/-- Modelled from the spec: the integer-accumulator (Bresenham) rasterizer
`bresenham_line` of `sunslicepy/rasterize.py`, which is not among the sources
at hand.  Classic midpoint algorithm generalised to all eight octants via
sign normalisation on `dx`/`dy`, with the error accumulator advanced along
the major axis; both endpoints are included exactly once and a degenerate
segment yields a single point.  The fuel argument only bounds the recursion;
`|dx| + |dy| + 1` emissions always suffice to reach the endpoint. -/
def bresenhamAux (x1 y1 sx sy dx dy : ℤ) : ℕ → ℤ → ℤ → ℤ → List (ℤ × ℤ)
  | 0, _, _, _ => []
  | fuel + 1, x, y, err =>
    (x, y) ::
      (if x = x1 ∧ y = y1 then []
       else
        let e2 := 2 * err
        let xq := dy ≤ e2
        let yq := e2 ≤ dx
        bresenhamAux x1 y1 sx sy dx dy fuel
          (if xq then x + sx else x)
          (if yq then y + sy else y)
          ((if xq then err + dy else err) + (if yq then dx else 0)))

/-- Modelled from the spec: entry point of the Bresenham rasterizer. -/
def bresenham_line (x0 y0 x1 y1 : ℤ) : List (ℤ × ℤ) :=
  let dx : ℤ := ((x1 - x0).natAbs : ℤ)
  let dy : ℤ := -((y1 - y0).natAbs : ℤ)
  let sx : ℤ := if x0 < x1 then 1 else -1
  let sy : ℤ := if y0 < y1 then 1 else -1
  bresenhamAux x1 y1 sx sy dx dy (dx - dy + 1).toNat x0 y0 (dx + dy)

/-- Modelled from the spec: the incremental floating-step (DDA) rasterizer
`dda_line` of `sunslicepy/rasterize.py`, which is not among the sources at
hand.  `step_count = max(|dx|, |dy|)`; at each of the `step_count + 1`
samples the coordinates advance by `dx/step_count` and `dy/step_count` and
are rounded to the nearest integer; a degenerate segment yields a single
point. -/
def dda_line (x0 y0 x1 y1 : ℤ) : List (ℤ × ℤ) :=
  let n := max (x1 - x0).natAbs (y1 - y0).natAbs
  if n = 0 then [(x0, y0)]
  else
    (List.range (n + 1)).map fun i =>
      (npRound ((x0 : ℚ) + (i : ℚ) * (((x1 - x0 : ℤ) : ℚ) / (n : ℚ))),
       npRound ((y0 : ℚ) + (i : ℚ) * (((y1 - y0 : ℤ) : ℚ) / (n : ℚ))))

/-- Per-frame pixel curve of `BresenhamSlice._get_slice` and
`DDASlice._get_slice` (slice.py lines 142-151 and 185-194), abstract in the
rasterizer: project the anchors, truncate-and-abs every component, run the
per-anchor rounding pass over all anchors, then rasterize from `coords[0]` to
`coords[1]` only.  Accessing `coords[0]` or `coords[1]` with fewer than two
anchors raises `IndexError`. -/
def line_frame_curve (raster_fn : ℤ → ℤ → ℤ → ℤ → List (ℤ × ℤ)) (pts : List (ℚ × ℚ)) :
    Except PyErr (List (ℤ × ℤ)) :=
  match (pts.map fun p => (line_anchor_px p.1, line_anchor_px p.2)).map line_round_step with
  | c0 :: c1 :: _ => .ok (raster_fn c0.1 c0.2 c1.1 c1.2)
  | _ => .error .indexError

/-- The write loop `for i in range(curve_len)` of the line slices (lines
158-160 and 202-204): assigning `curve_px[f][i]` raises `IndexError` as soon
as the sample index `i` reaches the allocated width `canonical`; below that
width the cell `((p.2, p.1), value)` is produced, reading the raster in
`(row, col)` order. -/
def write_loop {α : Type} (raster : List (List α)) (canonical : ℕ) :
    List (ℤ × ℤ) → ℕ → Except PyErr (List ((ℤ × ℤ) × α))
  | [], _ => .ok []
  | p :: rest, i =>
    if i < canonical then
      (np_get2 raster p.2 p.1).bind fun v =>
        (write_loop raster canonical rest (i + 1)).bind fun tail =>
          .ok (((p.2, p.1), v) :: tail)
    else .error .indexError

/-- One matrix row of the line slices: the cells actually written, padded
with `none` up to the allocated width (`np.empty` leaves the tail of the row
uninitialised whenever the curve is shorter than the first-frame curve). -/
def write_frame {α : Type} (raster : List (List α)) (canonical : ℕ) (curve : List (ℤ × ℤ)) :
    Except PyErr (List (Option (ℤ × ℤ)) × List (Option α)) :=
  (write_loop raster canonical curve 0).bind fun cells =>
    .ok (cells.map (fun c => some c.1) ++ List.replicate (canonical - cells.length) none,
         cells.map (fun c => some c.2) ++ List.replicate (canonical - cells.length) none)

/-- The frame loop of the line slices: `rem` frames remain, `f` is the
current frame index, `canon?` holds the width of the matrices allocated on
the first processed frame (`none` before any frame ran). -/
def line_slice_loop {α : Type} (raster_fn : ℤ → ℤ → ℤ → ℤ → List (ℤ × ℤ))
    (rasters : ℕ → List (List α)) (proj : ℕ → List (ℚ × ℚ)) :
    ℕ → ℕ → Option ℕ → List (List (Option (ℤ × ℤ))) → List (List (Option α)) →
    Except PyErr (List (List (Option (ℤ × ℤ))) × List (List (Option α)))
  | 0, _, _, accPx, accInt => .ok (accPx, accInt)
  | rem + 1, f, canon?, accPx, accInt =>
    (line_frame_curve raster_fn (proj f)).bind fun curve =>
      (write_frame (rasters f) (canon?.getD curve.length) curve).bind fun row =>
        line_slice_loop raster_fn rasters proj rem (f + 1) (some (canon?.getD curve.length))
          (accPx ++ [row.1]) (accInt ++ [row.2])

/-- `_get_slice` of the line slices: `raster_fn = bresenham_line` yields
`BresenhamSlice`, `raster_fn = dda_line` yields `DDASlice` (the two method
bodies are identical otherwise).  `rasters f` is `intensity_cube[f]` and
`proj f` the result of `self.map_sequence[f].world_to_pixel(...)`, the
external per-frame projection. -/
def line_get_slice {α : Type} (raster_fn : ℤ → ℤ → ℤ → ℤ → List (ℤ × ℤ))
    (frame_n : ℕ) (rasters : ℕ → List (List α)) (proj : ℕ → List (ℚ × ℚ)) :
    Except PyErr (List (List (Option (ℤ × ℤ))) × List (List (Option α))) :=
  line_slice_loop raster_fn rasters proj frame_n 0 none [] []

/-- One sample of `PointsSlice._get_slice` (lines 115-118): round the
projected anchor, store `(yi, xi)` and read `intensity_cube[f][yi][xi]`. -/
def points_sample {α : Type} (raster : List (List α)) (p : ℚ × ℚ) :
    Except PyErr ((ℤ × ℤ) × α) :=
  let xi := points_anchor_px p.1
  let yi := points_anchor_px p.2
  (np_get2 raster yi xi).bind fun v => .ok ((yi, xi), v)

/-- Frame `f` of `PointsSlice._get_slice`: one `(curve_px, intensity)` cell
per anchor, in anchor order. -/
def points_frame {α : Type} (raster : List (List α)) (pts : List (ℚ × ℚ)) :
    Except PyErr (List ((ℤ × ℤ) × α)) :=
  exceptMap (points_sample raster) pts

/-- `PointsSlice._get_slice` (lines 106-120): loop over the frames; a raised
`IndexError` propagates and aborts the computation. -/
def points_get_slice {α : Type} (frames : List (List (List α))) (proj : ℕ → List (ℚ × ℚ)) :
    Except PyErr (List (List ((ℤ × ℤ) × α))) :=
  exceptMap (fun f => points_frame (frames.getD f []) (proj f)) (List.range frames.length)

/-- The accumulation loop of `PointsSlice._get_curve_ds`: given the running
total `acc` up to the previous anchor `prev`, emit the cumulative distances
of the remaining anchors.  `sep` stands for the external angular separation
`SkyCoord.separation`. -/
def curve_ds_from {α : Type} (sep : α → α → ℚ) (acc : ℚ) (prev : α) : List α → List ℚ
  | [] => []
  | b :: rest => (acc + sep b prev) :: curve_ds_from sep (acc + sep b prev) b rest

/-- `PointsSlice._get_curve_ds` (lines 122-127): `curve_ds[0] = 0` and
`curve_ds[i+1] = curve_ds[i] + anchors[i+1].separation(anchors[i])`,
directly over the world-coordinate anchors. -/
def points_get_curve_ds {α : Type} (sep : α → α → ℚ) : List α → List ℚ
  | [] => []
  | a :: rest => 0 :: curve_ds_from sep 0 a rest

/-- numpy `np.convolve(a, v, mode="valid")` for a kernel no longer than the
signal: output index `k` carries the inner product of `a[k], ..., a[k+m-1]`
with the reversed kernel. -/
def npConvolveValid (a v : List ℚ) : List ℚ :=
  (List.range (a.length + 1 - v.length)).map fun k =>
    ∑ j in Finset.range v.length, a.getD (k + j) 0 * v.getD (v.length - 1 - j) 0

/-- The uniform kernel `np.ones(x)/float(x)`. -/
def boxcar_kernel (x : ℤ) : List ℚ := List.replicate x.toNat (1 / (x : ℚ))

/-- The python slice `l[dx:-dx]`. -/
def py_slice_trim (l : List ℚ) (dx : ℕ) : List ℚ := (l.drop dx).take (l.length - 2 * dx)

/-- `GenericSlice.pixel_boxcar` (lines 59-81).  `scipy_convolve` stands for
the external `scipy.ndimage.convolve` of the spatiotemporal branch.  The two
`raise NotImplemented` statements are modelled by `PyErr.raiseNotImplemented`. -/
def pixel_boxcar {τ : Type} (intensity : List (List ℚ)) (time : List τ) (curve_ds : List ℚ)
    (scipy_convolve : List (List ℚ) → ℤ → ℤ → List (List ℚ)) (x t : Option ℤ) :
    Except PyErr (List (List ℚ) × List τ × List ℚ) :=
  match x, t with
  | some x, none =>
    if x ≤ 1 ∨ x % 2 ≠ 1 then .error .usageError
    else
      let dx := ((x - 1) / 2).toNat
      .ok (intensity.map fun row => npConvolveValid row (boxcar_kernel x),
           time, py_slice_trim curve_ds dx)
  | none, some _ => .error .raiseNotImplemented
  | some x, some t =>
    if x ≤ 1 ∨ x % 2 ≠ 1 then .error .usageError
    else .ok (scipy_convolve intensity t x, time, curve_ds)
  | none, none => .error .raiseNotImplemented

/-- `running_difference` (lines 232-238): elementwise frame-to-frame
difference, one output row per consecutive frame pair. -/
def running_difference (time_space_arr : List (List ℚ)) : List (List ℚ) :=
  let t_len := time_space_arr.length
  let x_len := (time_space_arr.headD []).length
  (List.range (t_len - 1)).map fun t =>
    (List.range x_len).map fun i =>
      (time_space_arr.getD (t + 1) []).getD i 0 - (time_space_arr.getD t []).getD i 0

/-- A sunpy map, reduced to the data the initialiser inspects. -/
structure PyMap where
  data : List (List ℚ)
deriving DecidableEq

/-- numpy shape of the raster of a map. -/
def mapShape (m : PyMap) : ℕ × ℕ := (m.data.length, (m.data.headD []).length)

/-- The external sunpy method `MapSequence.all_maps_same_shape`: it tests
whether every map shares the raster shape of the first map and returns the
answer as a Boolean (`np.all([...])`); it raises nothing. -/
def all_maps_same_shape (maps : List PyMap) : Bool :=
  maps.all fun m => decide (mapShape m = mapShape (maps.headD ⟨[]⟩))

/-- `GenericSlice.__init__` reduced to its dataflow around line 28: the
statement `self.map_sequence.all_maps_same_shape()` is evaluated and its
Boolean result discarded, after which `_get_slice` runs unconditionally. -/
def generic_slice_init {σ : Type} (maps : List PyMap) (get_slice : Except PyErr σ) :
    Except PyErr σ :=
  let _shape_check := all_maps_same_shape maps
  get_slice

/-- `CustomSlice` construction (lines 217-229).  `func?` is `some f` when a
sampling function is passed and `none` when the caller omits the required
positional argument `func`, which python rejects at the call site with a
`TypeError` (`missingArgument`) before `__init__` runs.  With a function
supplied, `__init__` stores it (it is never used) and the base initialiser
invokes `_get_slice`, whose body is `raise NotImplemented`. -/
def custom_slice_init (maps : List PyMap) (func? : Option (PyMap → List (ℤ × ℤ))) :
    Except PyErr Unit :=
  match func? with
  | none => .error .missingArgument
  | some _ => generic_slice_init maps (.error .raiseNotImplemented)

example : bresenham_line 0 0 2 0 = [(0, 0), (1, 0), (2, 0)] := by decide
example : bresenham_line 2 0 2 2 = [(2, 0), (2, 1), (2, 2)] := by decide
example : bresenham_line 2 2 2 2 = [(2, 2)] := by decide
example : (bresenham_line 0 0 4 2).length = 5 := by decide
example : npRound (mkRat 5 2) = 2 := by decide
example : npRound (mkRat 7 2) = 4 := by decide
example : npRound (mkRat (-1) 2) = 0 := by decide
example : npRound (mkRat (-3) 5) = -1 := by decide
example : pyTrunc (mkRat (-27) 10) = -2 := by decide
example : points_anchor_px (mkRat 27 10) = 3 := by decide
example : line_anchor_px (mkRat 27 10) = 2 := by decide
example : line_anchor_px (mkRat (-27) 10) = 2 := by decide

/-! ## Shared helper lemmas -/

lemma getD_range_map {α : Type} (f : ℕ → α) (n i : ℕ) (d : α) (h : i < n) :
    ((List.range n).map f).getD i d = f i := by
  rw [List.getD_eq_getElem?_getD, List.getElem?_map, List.getElem?_range h]
  rfl

lemma getD_map_lt {α β : Type} (g : α → β) (l : List α) (i : ℕ) (h : i < l.length)
    (d : α) (d2 : β) : (l.map g).getD i d2 = g (l.getD i d) := by
  rw [List.getD_eq_getElem?_getD, List.getElem?_map, List.getElem?_eq_getElem h,
    List.getD_eq_getElem?_getD, List.getElem?_eq_getElem h]
  rfl

lemma getD_replicate_lt {α : Type} (n i : ℕ) (a d : α) (h : i < n) :
    (List.replicate n a).getD i d = a := by
  rw [List.getD_eq_getElem?_getD, List.getElem?_replicate]
  simp [h]

lemma pyTrunc_eq_floor (q : ℚ) : pyTrunc q = if q < 0 then -⌊-q⌋ else ⌊q⌋ := by
  have hfln : ⌊-q⌋ = (-q.num) / (q.den : ℤ) := by
    rw [Rat.floor_def, Rat.num_neg_eq_neg_num, Rat.den_neg_eq_den]
  by_cases h : q < 0
  · rw [if_pos h, pyTrunc, if_pos (Rat.num_neg.mpr h), hfln]
  · rw [if_neg h, pyTrunc, if_neg (by rw [Rat.num_neg]; exact h), Rat.floor_def]

lemma ratFloor_eq_floor (q : ℚ) : ratFloor q = ⌊q⌋ := by
  rw [Rat.floor_def]
  rfl

lemma npRound_intCast (n : ℤ) : npRound ((n : ℤ) : ℚ) = n := by
  have hnum : ((n : ℤ) : ℚ).num = n := Rat.num_intCast n
  have hden : ((n : ℤ) : ℚ).den = 1 := Rat.den_intCast n
  simp only [npRound, ratFloor, hnum, hden]
  norm_num

lemma pyTrunc_intCast (n : ℤ) : pyTrunc ((n : ℤ) : ℚ) = n := by
  have hnum : ((n : ℤ) : ℚ).num = n := Rat.num_intCast n
  have hden : ((n : ℤ) : ℚ).den = 1 := Rat.den_intCast n
  simp only [pyTrunc, hnum, hden]
  rcases lt_or_le n 0 with h | h
  · rw [if_pos h]
    omega
  · rw [if_neg (not_lt.mpr h)]
    omega

lemma line_round_step_id (c : ℤ × ℤ) : line_round_step c = c := by
  simp only [line_round_step, npRoundF, npRound_intCast, pyTrunc_intCast]

lemma exceptMap_ok_length {α β : Type} (g : α → Except PyErr β) :
    ∀ (l : List α) (r : List β), exceptMap g l = .ok r → r.length = l.length := by
  intro l
  induction l with
  | nil => intro r h; simp only [exceptMap] at h; cases h; rfl
  | cons a as ih =>
    intro r h
    simp only [exceptMap] at h
    cases hga : g a with
    | error e => rw [hga, except_bind_error] at h; cases h
    | ok b =>
      rw [hga] at h
      simp only [except_bind_ok] at h
      cases hrest : exceptMap g as with
      | error e => rw [hrest, except_bind_error] at h; cases h
      | ok bs =>
        rw [hrest] at h
        simp only [except_bind_ok] at h
        cases h
        simp [ih bs hrest]

lemma exceptMap_ok_mem {α β : Type} (g : α → Except PyErr β) :
    ∀ (l : List α) (r : List β), exceptMap g l = .ok r → ∀ a ∈ l, ∃ b, g a = .ok b := by
  intro l
  induction l with
  | nil => intro r _ a ha; cases ha
  | cons x xs ih =>
    intro r h a ha
    simp only [exceptMap] at h
    cases hgx : g x with
    | error e => rw [hgx, except_bind_error] at h; cases h
    | ok b =>
      rw [hgx] at h
      simp only [except_bind_ok] at h
      cases hrest : exceptMap g xs with
      | error e => rw [hrest, except_bind_error] at h; cases h
      | ok bs =>
        rcases List.mem_cons.mp ha with rfl | hmem
        · exact ⟨b, hgx⟩
        · exact ih bs hrest a hmem

/-! ## Claim theorems -/

/-- C3: the spec says a sequence of frames with inconsistent raster shapes
must fail fast at construction.  In the source, line 28 calls the sunpy shape
predicate and discards its Boolean result, so construction proceeds without
any error: evaluating the model on two frames of shapes 2✕2 and 1✕3, the
predicate is `false` yet the initialiser completes successfully. -/
theorem C3_shape_check_discarded :
    all_maps_same_shape [⟨[[0, 0], [0, 0]]⟩, ⟨[[0, 0, 0]]⟩] = false ∧
    generic_slice_init [⟨[[0, 0], [0, 0]]⟩, ⟨[[0, 0, 0]]⟩] (.ok 7) = Except.ok (7 : ℕ) := by
  constructor
  · decide
  · rfl

/-- C4: constructing a `CustomSlice` without supplying a sampling function
fails immediately with the missing-required-argument error (the signature
makes `func` mandatory), which is distinct from the not-implemented fault the
sampling stub raises; with a function supplied, construction still runs into
the stub during `__init__`. -/
theorem C4_custom_func_required :
    (∀ maps : List PyMap, custom_slice_init maps none = .error .missingArgument) ∧
    (∀ (maps : List PyMap) (f : PyMap → List (ℤ × ℤ)),
      custom_slice_init maps (some f) = .error .raiseNotImplemented) ∧
    PyErr.missingArgument ≠ PyErr.raiseNotImplemented :=
  ⟨fun _ => rfl, fun _ _ => rfl, by decide⟩

/-- C9: a smoothing request with a lone temporal window and no spatial window
raises (it is `raise NotImplemented`, which reaches the caller as an
exception) and never returns a value. -/
theorem C9_temporal_only_raises {τ : Type} :
    ∀ (intensity : List (List ℚ)) (time : List τ) (curve_ds : List ℚ)
      (scipy : List (List ℚ) → ℤ → ℤ → List (List ℚ)) (t : ℤ),
      pixel_boxcar intensity time curve_ds scipy none (some t) = .error .raiseNotImplemented ∧
      ∀ r, pixel_boxcar intensity time curve_ds scipy none (some t) ≠ .ok r := by
  intro intensity time curve_ds scipy t
  refine ⟨rfl, ?_⟩
  intro r h
  cases h

/-- C10: in the line slices every projected anchor component is converted by
truncation toward zero followed by the absolute value (so a negative
component is mapped to the magnitude of its truncation), and the subsequent
per-anchor rounding pass is the identity on the already-integer coordinates;
the `PointsSlice` conversion instead rounds to nearest (half to even) before
the `int` conversion, and the two conversions disagree, for example at 2.7. -/
theorem C10_endpoint_conversion :
    (∀ v : ℚ, line_anchor_px v = |pyTrunc v|) ∧
    (∀ v : ℚ, line_anchor_px v = pyTrunc |v|) ∧
    (∀ c : ℤ × ℤ, line_round_step c = c) ∧
    (∀ v : ℚ, points_anchor_px v = npRound v) ∧
    line_anchor_px (mkRat 27 10) ≠ points_anchor_px (mkRat 27 10) := by
  have habs : ∀ v : ℚ, line_anchor_px v = |pyTrunc v| := by
    intro v
    rw [line_anchor_px, Int.abs_eq_natAbs]
  refine ⟨habs, ?_, line_round_step_id, ?_, by decide⟩
  · intro v
    rw [habs v, pyTrunc_eq_floor, pyTrunc_eq_floor]
    rcases lt_trichotomy v 0 with h | h | h
    · rw [if_pos h, if_neg (not_lt.mpr (le_of_lt (abs_pos_of_neg h))), abs_of_neg h]
      have : (0 : ℤ) ≤ ⌊-v⌋ := Int.floor_nonneg.mpr (by linarith)
      rw [abs_neg, abs_of_nonneg this]
    · subst h
      simp
    · rw [if_neg (not_lt.mpr (le_of_lt h)), if_neg (not_lt.mpr (abs_nonneg v)),
        abs_of_pos h]
      exact abs_of_nonneg (Int.floor_nonneg.mpr (le_of_lt h))
  · intro v
    rw [points_anchor_px, npRoundF, pyTrunc_intCast]

/-- C6: for an intensity matrix of shape `(T, X)` with `T ≥ 1`,
`running_difference` returns a matrix of shape `(T-1, X)` whose entry at
`(t, i)` is `I[t+1][i] - I[t][i]`. -/
theorem C6_running_difference (I : List (List ℚ)) (T X : ℕ)
    (hT : I.length = T) (h1 : 1 ≤ T) (hrect : ∀ row ∈ I, row.length = X) :
    (running_difference I).length = T - 1 ∧
    (∀ row ∈ running_difference I, row.length = X) ∧
    ∀ t i, t < T - 1 → i < X →
      ((running_difference I).getD t []).getD i 0 =
        (I.getD (t + 1) []).getD i 0 - (I.getD t []).getD i 0 := by
  have hx : (I.headD []).length = X := by
    cases I with
    | nil => simp at hT; omega
    | cons r rest => exact hrect r (List.mem_cons_self r rest)
  refine ⟨?_, ?_, ?_⟩
  · simp [running_difference, hT]
  · intro row hrow
    simp only [running_difference] at hrow
    rcases List.mem_map.mp hrow with ⟨t, _, rfl⟩
    rw [List.length_map, List.length_range]
    exact hx
  · intro t i ht hi
    simp only [running_difference]
    rw [getD_range_map _ _ _ _ (by omega : t < I.length - 1),
      getD_range_map _ _ _ _ (by rw [hx]; exact hi)]

example : running_difference [[1, 2], [4, 6]] = [[4 - 1, 6 - 2]] := by
  simp [running_difference, List.range_succ]

theorem C6_running_difference_witness :
    (running_difference [[1, 2], [4, 6]]).length = 2 - 1 ∧
    (∀ row ∈ running_difference [[1, 2], [4, 6]], row.length = 2) ∧
    ∀ t i, t < 2 - 1 → i < 2 →
      ((running_difference [[1, 2], [4, 6]]).getD t []).getD i 0 =
        (([[1, 2], [4, 6]] : List (List ℚ)).getD (t + 1) []).getD i 0 -
          (([[1, 2], [4, 6]] : List (List ℚ)).getD t []).getD i 0 :=
  C6_running_difference [[1, 2], [4, 6]] 2 2 rfl (by decide) (by decide)

lemma getD_mem_of_lt {α : Type} (l : List α) (i : ℕ) (d : α) (h : i < l.length) :
    l.getD i d ∈ l := by
  rw [List.getD_eq_getElem?_getD, List.getElem?_eq_getElem h]
  exact List.getElem_mem h

lemma npConvolveValid_length (a v : List ℚ) :
    (npConvolveValid a v).length = a.length + 1 - v.length := by
  simp [npConvolveValid]

lemma boxcar_kernel_length (x : ℤ) : (boxcar_kernel x).length = x.toNat := by
  simp [boxcar_kernel]

lemma npConvolveValid_boxcar_getD (a : List ℚ) (x : ℤ) (i : ℕ)
    (hi : i < a.length + 1 - x.toNat) :
    (npConvolveValid a (boxcar_kernel x)).getD i 0 =
      (1 / (x : ℚ)) * ∑ j in Finset.range x.toNat, a.getD (i + j) 0 := by
  simp only [npConvolveValid, boxcar_kernel_length]
  rw [getD_range_map _ _ _ _ hi]
  have hker : ∀ j ∈ Finset.range x.toNat,
      a.getD (i + j) 0 * (boxcar_kernel x).getD (x.toNat - 1 - j) 0 =
        (1 / (x : ℚ)) * a.getD (i + j) 0 := by
    intro j hj
    have hjx : j < x.toNat := Finset.mem_range.mp hj
    rw [boxcar_kernel, getD_replicate_lt _ _ _ _ (by omega)]
    ring
  rw [Finset.sum_congr rfl hker, Finset.mul_sum]

lemma py_slice_trim_length (l : List ℚ) (dx : ℕ) :
    (py_slice_trim l dx).length = l.length - 2 * dx := by
  simp [py_slice_trim]
  omega

lemma py_slice_trim_getD (l : List ℚ) (dx i : ℕ) (h : i < l.length - 2 * dx) :
    (py_slice_trim l dx).getD i 0 = l.getD (dx + i) 0 := by
  rw [py_slice_trim, List.getD_eq_getElem?_getD, List.getElem?_take, if_pos h,
    List.getElem?_drop, ← List.getD_eq_getElem?_getD]

/-- C5: spatial-only boxcar smoothing with an odd window `x > 1` returns the
matrix of valid-mode uniform convolutions of the rows (each output entry is
the `1/x`-weighted window sum), with shape
`(frame_count, curve_length - x + 1)`, together with the unchanged time list
and the distance axis trimmed by `(x-1)/2` entries at each end; any window
that is not odd or is at most 1 raises the usage error. -/
theorem C5_pixel_boxcar_spatial {τ : Type} (intensity : List (List ℚ)) (time : List τ)
    (curve_ds : List ℚ) (scipy : List (List ℚ) → ℤ → ℤ → List (List ℚ)) (x : ℤ) (L : ℕ)
    (hrect : ∀ row ∈ intensity, row.length = L) (hds : curve_ds.length = L) :
    ((Odd x ∧ 1 < x ∧ x.toNat ≤ L) →
      ∃ D ds2,
        pixel_boxcar intensity time curve_ds scipy (some x) none = .ok (D, time, ds2) ∧
        D.length = intensity.length ∧
        (∀ f, f < intensity.length → (D.getD f []).length = L - x.toNat + 1) ∧
        (∀ f i, f < intensity.length → i < L - x.toNat + 1 →
          (D.getD f []).getD i 0 =
            (1 / (x : ℚ)) *
              ∑ j in Finset.range x.toNat, (intensity.getD f []).getD (i + j) 0) ∧
        ds2.length = L - x.toNat + 1 ∧
        (∀ i, i < L - x.toNat + 1 →
          ds2.getD i 0 = curve_ds.getD ((x.toNat - 1) / 2 + i) 0)) ∧
    ((x ≤ 1 ∨ ¬ Odd x) →
      pixel_boxcar intensity time curve_ds scipy (some x) none = .error .usageError) := by
  constructor
  · rintro ⟨hodd, hgt, hxL⟩
    have hx2 : x % 2 = 1 := Int.odd_iff.mp hodd
    have hcond : ¬(x ≤ 1 ∨ x % 2 ≠ 1) := by omega
    have h2dx : 2 * ((x - 1) / 2).toNat = x.toNat - 1 := by omega
    have hdx_eq : ((x - 1) / 2).toNat = (x.toNat - 1) / 2 := by omega
    simp only [pixel_boxcar, if_neg hcond]
    refine ⟨_, _, rfl, ?_, ?_, ?_, ?_, ?_⟩
    · rw [List.length_map]
    · intro f hf
      rw [getD_map_lt _ _ _ hf [] [], npConvolveValid_length, boxcar_kernel_length,
        hrect _ (getD_mem_of_lt _ _ _ hf)]
      omega
    · intro f i hf hi
      rw [getD_map_lt _ _ _ hf [] []]
      exact npConvolveValid_boxcar_getD _ x i
        (by rw [hrect _ (getD_mem_of_lt _ _ _ hf)]; omega)
    · rw [py_slice_trim_length, hds]
      omega
    · intro i hi
      rw [py_slice_trim_getD _ _ _ (by rw [hds]; omega), hdx_eq]
  · intro h
    have hcond : x ≤ 1 ∨ x % 2 ≠ 1 := by
      rcases h with h1 | h2
      · exact Or.inl h1
      · rw [Int.odd_iff] at h2
        omega
    simp only [pixel_boxcar, if_pos hcond]

theorem C5_pixel_boxcar_spatial_witness :
    (∃ D ds2,
      pixel_boxcar [[1, 2, 3]] [(5 : ℕ)] [10, 20, 30] (fun m _ _ => m) (some 3) none =
        .ok (D, [(5 : ℕ)], ds2) ∧
      D.length = 1 ∧
      (∀ f, f < 1 → (D.getD f []).length = 1) ∧
      (∀ f i, f < 1 → i < 1 →
        (D.getD f []).getD i 0 =
          (1 / ((3 : ℤ) : ℚ)) *
            ∑ j in Finset.range (3 : ℤ).toNat,
              (([[1, 2, 3]] : List (List ℚ)).getD f []).getD (i + j) 0) ∧
      ds2.length = 1 ∧
      (∀ i, i < 1 → ds2.getD i 0 = ([10, 20, 30] : List ℚ).getD (1 + i) 0)) ∧
    pixel_boxcar [[1, 2, 3]] [(5 : ℕ)] [10, 20, 30] (fun m _ _ => m) (some 4) none =
      .error .usageError :=
  ⟨(C5_pixel_boxcar_spatial [[1, 2, 3]] [(5 : ℕ)] [10, 20, 30] (fun m _ _ => m) 3 3
      (by decide) (by decide)).1
      ⟨Int.odd_iff.mpr (by decide), by decide, by decide⟩,
   (C5_pixel_boxcar_spatial [[1, 2, 3]] [(5 : ℕ)] [10, 20, 30] (fun m _ _ => m) 4 3
      (by decide) (by decide)).2
      (Or.inr fun hodd => absurd (Int.odd_iff.mp hodd) (by decide))⟩

lemma curve_ds_from_length {α : Type} (sep : α → α → ℚ) :
    ∀ (l : List α) (acc : ℚ) (prev : α), (curve_ds_from sep acc prev l).length = l.length := by
  intro l
  induction l with
  | nil => intro acc prev; rfl
  | cons b rest ih =>
    intro acc prev
    simp only [curve_ds_from, List.length_cons, ih]

lemma curve_ds_from_getD {α : Type} (sep : α → α → ℚ) (d : α) :
    ∀ (l : List α) (acc : ℚ) (prev : α) (i : ℕ), i < l.length →
      (curve_ds_from sep acc prev l).getD i 0 =
        acc + ∑ k in Finset.range (i + 1), sep (l.getD k d) ((prev :: l).getD k d) := by
  intro l
  induction l with
  | nil =>
    intro acc prev i h
    simp at h
  | cons b rest ih =>
    intro acc prev i h
    cases i with
    | zero =>
      simp [curve_ds_from, Finset.sum_range_one]
    | succ i =>
      have hlen : i < rest.length := by
        simp only [List.length_cons] at h
        omega
      rw [curve_ds_from, List.getD_cons_succ, ih (acc + sep b prev) b i hlen]
      conv_rhs => rw [Finset.sum_range_succ']
      simp only [List.getD_cons_succ, List.getD_cons_zero]
      ring

/-- C7: the `PointsSlice` distance axis over `N ≥ 1` anchors has length `N`,
starts at 0, obeys `distance[i+1] = distance[i] + sep(anchor[i+1], anchor[i])`
over the world-coordinate anchors directly, and is monotonically
non-decreasing whenever the separation is non-negative; moreover a
`PointsSlice` frame produces exactly one curve sample per anchor, so the
curve length equals the anchor count. -/
theorem C7_points_distance_axis {α : Type} (sep : α → α → ℚ) (anchors : List α)
    (N : ℕ) (d : α) (hN : anchors.length = N) (h1 : 1 ≤ N)
    (hsep : ∀ a b, 0 ≤ sep a b) :
    (points_get_curve_ds sep anchors).length = N ∧
    (points_get_curve_ds sep anchors).getD 0 0 = 0 ∧
    (∀ i, i + 1 < N →
      (points_get_curve_ds sep anchors).getD (i + 1) 0 =
        (points_get_curve_ds sep anchors).getD i 0 +
          sep (anchors.getD (i + 1) d) (anchors.getD i d)) ∧
    (∀ i j, i ≤ j → j < N →
      (points_get_curve_ds sep anchors).getD i 0 ≤
        (points_get_curve_ds sep anchors).getD j 0) ∧
    (∀ (raster : List (List ℚ)) (pts : List (ℚ × ℚ)) (res : List ((ℤ × ℤ) × ℚ)),
      points_frame raster pts = .ok res → res.length = pts.length) := by
  obtain ⟨a, rest, rfl⟩ : ∃ a rest, anchors = a :: rest := by
    cases anchors with
    | nil => simp at hN; omega
    | cons a rest => exact ⟨a, rest, rfl⟩
  have hsum : ∀ i, i < N → (points_get_curve_ds sep (a :: rest)).getD i 0 =
      ∑ k in Finset.range i,
        sep ((a :: rest).getD (k + 1) d) ((a :: rest).getD k d) := by
    intro i hi
    cases i with
    | zero => simp [points_get_curve_ds]
    | succ i =>
      have hlen : i < rest.length := by
        simp only [List.length_cons] at hN
        omega
      rw [points_get_curve_ds, List.getD_cons_succ, curve_ds_from_getD sep d rest 0 a i hlen,
        zero_add]
      exact Finset.sum_congr rfl fun k _ => by rw [List.getD_cons_succ]
  refine ⟨?_, ?_, ?_, ?_, ?_⟩
  · rw [points_get_curve_ds, List.length_cons, curve_ds_from_length, ← hN, List.length_cons]
  · simp [points_get_curve_ds]
  · intro i hi
    rw [hsum (i + 1) hi, hsum i (by omega), Finset.sum_range_succ]
  · intro i j hij hj
    rw [hsum i (by omega), hsum j hj]
    exact Finset.sum_le_sum_of_subset_of_nonneg
      (Finset.range_subset.mpr hij) (fun k _ _ => hsep _ _)
  · intro raster pts res h
    exact exceptMap_ok_length _ pts res h

theorem C7_points_distance_axis_witness :
    (points_get_curve_ds (fun (_ _ : ℕ) => (1 : ℚ)) [0, 1, 2]).length = 3 ∧
    (points_get_curve_ds (fun (_ _ : ℕ) => (1 : ℚ)) [0, 1, 2]).getD 0 0 = 0 ∧
    (∀ i, i + 1 < 3 →
      (points_get_curve_ds (fun (_ _ : ℕ) => (1 : ℚ)) [0, 1, 2]).getD (i + 1) 0 =
        (points_get_curve_ds (fun (_ _ : ℕ) => (1 : ℚ)) [0, 1, 2]).getD i 0 + 1) ∧
    (∀ i j, i ≤ j → j < 3 →
      (points_get_curve_ds (fun (_ _ : ℕ) => (1 : ℚ)) [0, 1, 2]).getD i 0 ≤
        (points_get_curve_ds (fun (_ _ : ℕ) => (1 : ℚ)) [0, 1, 2]).getD j 0) ∧
    (∀ (raster : List (List ℚ)) (pts : List (ℚ × ℚ)) (res : List ((ℤ × ℤ) × ℚ)),
      points_frame raster pts = .ok res → res.length = pts.length) :=
  C7_points_distance_axis (fun _ _ => (1 : ℚ)) [0, 1, 2] 3 0 rfl
    (by decide) (fun _ _ => zero_le_one)

lemma line_frame_curve_cons (raster_fn : ℤ → ℤ → ℤ → ℤ → List (ℤ × ℤ))
    (p0 p1 : ℚ × ℚ) (rest : List (ℚ × ℚ)) :
    line_frame_curve raster_fn (p0 :: p1 :: rest) =
      .ok (raster_fn (line_anchor_px p0.1) (line_anchor_px p0.2)
        (line_anchor_px p1.1) (line_anchor_px p1.2)) := by
  simp only [line_frame_curve, List.map_cons, line_round_step_id]

lemma line_frame_curve_take2 (raster_fn : ℤ → ℤ → ℤ → ℤ → List (ℤ × ℤ))
    (pts pts2 : List (ℚ × ℚ)) (h1 : 2 ≤ pts.length) (h2 : 2 ≤ pts2.length)
    (ht : pts.take 2 = pts2.take 2) :
    line_frame_curve raster_fn pts = line_frame_curve raster_fn pts2 := by
  obtain ⟨a0, a1, t, rfl⟩ : ∃ a0 a1 t, pts = a0 :: a1 :: t := by
    cases pts with
    | nil => simp at h1
    | cons a0 rest =>
      cases rest with
      | nil => simp at h1
      | cons a1 t => exact ⟨a0, a1, t, rfl⟩
  obtain ⟨b0, b1, t2, rfl⟩ : ∃ b0 b1 t2, pts2 = b0 :: b1 :: t2 := by
    cases pts2 with
    | nil => simp at h2
    | cons b0 rest =>
      cases rest with
      | nil => simp at h2
      | cons b1 t2 => exact ⟨b0, b1, t2, rfl⟩
  simp only [List.take_succ_cons, List.take_zero, List.cons.injEq, and_true] at ht
  obtain ⟨rfl, rfl⟩ := ht
  rw [line_frame_curve_cons, line_frame_curve_cons]

lemma line_slice_loop_proj_congr {α : Type} (raster_fn : ℤ → ℤ → ℤ → ℤ → List (ℤ × ℤ))
    (rasters : ℕ → List (List α)) (proj proj2 : ℕ → List (ℚ × ℚ))
    (h : ∀ f, 2 ≤ (proj f).length ∧ 2 ≤ (proj2 f).length ∧
      (proj f).take 2 = (proj2 f).take 2) :
    ∀ (rem f : ℕ) (canon? : Option ℕ) (accPx : List (List (Option (ℤ × ℤ))))
      (accInt : List (List (Option α))),
      line_slice_loop raster_fn rasters proj rem f canon? accPx accInt =
        line_slice_loop raster_fn rasters proj2 rem f canon? accPx accInt := by
  intro rem
  induction rem with
  | zero => intro f canon? accPx accInt; rfl
  | succ rem ih =>
    intro f canon? accPx accInt
    have hcurve : line_frame_curve raster_fn (proj f) = line_frame_curve raster_fn (proj2 f) :=
      line_frame_curve_take2 raster_fn _ _ (h f).1 (h f).2.1 (h f).2.2
    simp only [line_slice_loop]
    rw [hcurve]
    rcases hres : line_frame_curve raster_fn (proj2 f) with e | curve
    · simp only [except_bind_error]
    · simp only [except_bind_ok]
      rcases hw : write_frame (rasters f) (canon?.getD curve.length) curve with e | row
      · simp only [except_bind_error]
      · simp only [except_bind_ok]
        exact ih (f + 1) (some (canon?.getD curve.length)) _ _

/-- C2: the claim that every consecutive anchor pair of a longer path
contributes a rasterized segment fails on the code; what holds instead is
that the per-frame pixel curve of the line slices is the rasterization of
the first anchor pair only: anchors beyond the second are ignored entirely
(the whole slice result is invariant under changing them), and for any path
with at least two anchors the curve equals the rasterizer output on the
converted first two anchors. -/
theorem C2_first_anchor_pair_only (α : Type) :
    (∀ (raster_fn : ℤ → ℤ → ℤ → ℤ → List (ℤ × ℤ)) (p0 p1 : ℚ × ℚ) (rest : List (ℚ × ℚ)),
      line_frame_curve raster_fn (p0 :: p1 :: rest) =
        .ok (raster_fn (line_anchor_px p0.1) (line_anchor_px p0.2)
          (line_anchor_px p1.1) (line_anchor_px p1.2))) ∧
    (∀ (raster_fn : ℤ → ℤ → ℤ → ℤ → List (ℤ × ℤ)) (pts pts2 : List (ℚ × ℚ)),
      2 ≤ pts.length → 2 ≤ pts2.length → pts.take 2 = pts2.take 2 →
      line_frame_curve raster_fn pts = line_frame_curve raster_fn pts2) ∧
    (∀ (raster_fn : ℤ → ℤ → ℤ → ℤ → List (ℤ × ℤ)) (n : ℕ)
      (rasters : ℕ → List (List α)) (proj proj2 : ℕ → List (ℚ × ℚ)),
      (∀ f, 2 ≤ (proj f).length ∧ 2 ≤ (proj2 f).length ∧
        (proj f).take 2 = (proj2 f).take 2) →
      line_get_slice raster_fn n rasters proj = line_get_slice raster_fn n rasters proj2) :=
  ⟨line_frame_curve_cons,
   line_frame_curve_take2,
   fun raster_fn n rasters proj proj2 h =>
     line_slice_loop_proj_congr raster_fn rasters proj proj2 h n 0 none [] []⟩

theorem C2_multi_anchor_counterexample :
    line_frame_curve bresenham_line [((0 : ℚ), (0 : ℚ)), (2, 0), (2, 2)] =
      .ok [(0, 0), (1, 0), (2, 0)] ∧
    bresenham_line 0 0 2 0 ++ bresenham_line 2 0 2 2 =
      [(0, 0), (1, 0), (2, 0), (2, 0), (2, 1), (2, 2)] ∧
    (Except.ok [(0, 0), (1, 0), (2, 0)] : Except PyErr (List (ℤ × ℤ))) ≠
      .ok [(0, 0), (1, 0), (2, 0), (2, 0), (2, 1), (2, 2)] := by
  refine ⟨by decide, by decide, by decide⟩

theorem C2_first_anchor_pair_only_witness :
    line_frame_curve bresenham_line [((0 : ℚ), (0 : ℚ)), (2, 0), (2, 2)] =
      line_frame_curve bresenham_line [((0 : ℚ), (0 : ℚ)), (2, 0), (100, 100)] ∧
    line_get_slice bresenham_line 1 (fun _ => [[(1 : ℕ), 2], [3, 4]])
        (fun _ => [((0 : ℚ), 0), (1, 0), (5, 5)]) =
      line_get_slice bresenham_line 1 (fun _ => [[(1 : ℕ), 2], [3, 4]])
        (fun _ => [((0 : ℚ), 0), (1, 0)]) :=
  ⟨(C2_first_anchor_pair_only ℕ).2.1 bresenham_line _ _ (by decide) (by decide) (by decide),
   (C2_first_anchor_pair_only ℕ).2.2 bresenham_line 1 _ _ _
     (fun _ => ⟨by decide, by decide, by decide⟩)⟩

lemma np_getIdx_out {α : Type} (l : List α) (i : ℤ)
    (h : (l.length : ℤ) ≤ i ∨ i < -(l.length : ℤ)) :
    np_getIdx l i = .error .indexError := by
  rw [np_getIdx, dif_neg (by omega), dif_neg (by omega)]

lemma np_getIdx_ok {α : Type} (l : List α) (i : ℤ) (d : α)
    (h1 : 0 ≤ i) (h2 : i < (l.length : ℤ)) :
    np_getIdx l i = .ok (l.getD i.toNat d) := by
  rw [np_getIdx, dif_pos ⟨h1, h2⟩]
  have hlt : i.toNat < l.length := by omega
  rw [List.getD_eq_getElem?_getD, List.getElem?_eq_getElem hlt]
  rfl

lemma np_getIdx_neg_wrap {α : Type} (l : List α) (i : ℤ)
    (h1 : -(l.length : ℤ) ≤ i) (h2 : i < 0) :
    np_getIdx l i = np_getIdx l (i + l.length) := by
  have ha : ¬(0 ≤ i ∧ i < (l.length : ℤ)) := by omega
  have hc : 0 ≤ i + (l.length : ℤ) ∧ i + (l.length : ℤ) < (l.length : ℤ) := by omega
  rw [np_getIdx, dif_neg ha, dif_pos ⟨h1, h2⟩, np_getIdx, dif_pos hc]

lemma np_getIdx_ok_mem {α : Type} (l : List α) (i : ℤ) (a : α)
    (h : np_getIdx l i = .ok a) : a ∈ l := by
  by_cases h1 : 0 ≤ i ∧ i < (l.length : ℤ)
  · rw [np_getIdx, dif_pos h1] at h
    cases h
    exact List.get_mem l _ _
  · by_cases h2 : -(l.length : ℤ) ≤ i ∧ i < 0
    · rw [np_getIdx, dif_neg h1, dif_pos h2] at h
      cases h
      exact List.get_mem l _ _
    · rw [np_getIdx, dif_neg h1, dif_neg h2] at h
      cases h

lemma np_getIdx_error_eq {α : Type} (l : List α) (i : ℤ) (e : PyErr)
    (h : np_getIdx l i = .error e) : e = .indexError := by
  by_cases h1 : 0 ≤ i ∧ i < (l.length : ℤ)
  · rw [np_getIdx, dif_pos h1] at h
    cases h
  · by_cases h2 : -(l.length : ℤ) ≤ i ∧ i < 0
    · rw [np_getIdx, dif_neg h1, dif_pos h2] at h
      cases h
    · rw [np_getIdx, dif_neg h1, dif_neg h2] at h
      cases h
      rfl

/-- C8: extraction reads the raster in `(row, col)` order and an out-of-range
index raises an `IndexError` that propagates (a successful slice implies
every sample extraction succeeded), but only components at or beyond the
dimension, or strictly below its negation, are out of range: a negative
component in `[-dim, -1]` wraps around numpy-style to `dim + component` and
is read silently, so extraction does not fail there. -/
theorem C8_extraction_bounds {α : Type} (raster : List (List α)) (R C : ℕ) (y x : ℤ)
    (d : α) (hR : raster.length = R) (hrect : ∀ row ∈ raster, row.length = C) :
    (((R : ℤ) ≤ y ∨ y < -(R : ℤ) ∨ (C : ℤ) ≤ x ∨ x < -(C : ℤ)) →
      np_get2 raster y x = .error .indexError) ∧
    ((0 ≤ y ∧ y < (R : ℤ) ∧ 0 ≤ x ∧ x < (C : ℤ)) →
      np_get2 raster y x = .ok ((raster.getD y.toNat []).getD x.toNat d)) ∧
    ((-(R : ℤ) ≤ y ∧ y < 0) → np_get2 raster y x = np_get2 raster (y + R) x) ∧
    ((-(C : ℤ) ≤ x ∧ x < 0) → np_get2 raster y x = np_get2 raster y (x + C)) ∧
    (∀ (frames : List (List (List α))) (proj : ℕ → List (ℚ × ℚ))
      (M : List (List ((ℤ × ℤ) × α))),
      points_get_slice frames proj = .ok M →
      ∀ f, f < frames.length →
        ∃ r, points_frame (frames.getD f []) (proj f) = .ok r ∧
          ∀ p ∈ proj f, ∃ c, points_sample (frames.getD f []) p = .ok c) := by
  refine ⟨?_, ?_, ?_, ?_, ?_⟩
  · intro h
    rcases h with h | h | h | h
    · rw [np_get2, np_getIdx_out raster y (by omega), except_bind_error]
    · rw [np_get2, np_getIdx_out raster y (by omega), except_bind_error]
    · rw [np_get2]
      cases hrow : np_getIdx raster y with
      | error e =>
        rw [except_bind_error, np_getIdx_error_eq raster y e hrow]
      | ok row =>
        rw [except_bind_ok]
        exact np_getIdx_out row x (by rw [hrect row (np_getIdx_ok_mem raster y row hrow)]; omega)
    · rw [np_get2]
      cases hrow : np_getIdx raster y with
      | error e =>
        rw [except_bind_error, np_getIdx_error_eq raster y e hrow]
      | ok row =>
        rw [except_bind_ok]
        exact np_getIdx_out row x (by rw [hrect row (np_getIdx_ok_mem raster y row hrow)]; omega)
  · rintro ⟨hy0, hyR, hx0, hxC⟩
    rw [np_get2, np_getIdx_ok raster y [] hy0 (by omega), except_bind_ok]
    have hmem : raster.getD y.toNat [] ∈ raster := getD_mem_of_lt raster y.toNat [] (by omega)
    exact np_getIdx_ok _ x d hx0 (by rw [hrect _ hmem]; omega)
  · rintro ⟨h1, h2⟩
    rw [np_get2, np_get2, np_getIdx_neg_wrap raster y (by omega) h2, hR]
  · rintro ⟨h1, h2⟩
    rw [np_get2, np_get2]
    cases hrow : np_getIdx raster y with
    | error e => rw [except_bind_error, except_bind_error]
    | ok row =>
      rw [except_bind_ok, except_bind_ok,
        np_getIdx_neg_wrap row x
          (by rw [hrect row (np_getIdx_ok_mem raster y row hrow)]; omega) h2,
        hrect row (np_getIdx_ok_mem raster y row hrow)]
  · intro frames proj M h f hf
    obtain ⟨r, hr⟩ := exceptMap_ok_mem _ (List.range frames.length) M h f (List.mem_range.mpr hf)
    exact ⟨r, hr, fun p hp => exceptMap_ok_mem _ (proj f) r hr p hp⟩

theorem C8_negative_index_not_fatal :
    points_get_slice [[[1, 2], [3, 4]]] (fun _ => [((0 : ℚ), mkRat (-3) 5)]) =
      .ok [[((-1, 0), (3 : ℕ))]] := by
  decide

theorem C8_extraction_bounds_witness :
    np_get2 [[(1 : ℕ), 2], [3, 4]] 5 0 = .error .indexError ∧
    np_get2 [[(1 : ℕ), 2], [3, 4]] 1 0 =
      .ok ((([[1, 2], [3, 4]] : List (List ℕ)).getD (1 : ℤ).toNat []).getD (0 : ℤ).toNat 0) ∧
    np_get2 [[(1 : ℕ), 2], [3, 4]] (-1) 0 = np_get2 [[(1 : ℕ), 2], [3, 4]] (-1 + 2) 0 :=
  ⟨(C8_extraction_bounds [[1, 2], [3, 4]] 2 2 5 0 0 (by decide) (by decide)).1
      (Or.inl (by decide)),
   (C8_extraction_bounds [[1, 2], [3, 4]] 2 2 1 0 0 (by decide) (by decide)).2.1
      ⟨by decide, by decide, by decide, by decide⟩,
   (C8_extraction_bounds [[1, 2], [3, 4]] 2 2 (-1) 0 0 (by decide) (by decide)).2.2.1
      ⟨by decide, by decide⟩⟩

lemma write_loop_long {α : Type} (raster : List (List α)) (canonical : ℕ) :
    ∀ (curve : List (ℤ × ℤ)) (i : ℕ), i ≤ canonical → canonical < i + curve.length →
      (∀ j, j < curve.length → i + j < canonical →
        ∃ v, np_get2 raster ((curve.getD j (0, 0)).2) ((curve.getD j (0, 0)).1) = .ok v) →
      write_loop raster canonical curve i = .error .indexError := by
  intro curve
  induction curve with
  | nil =>
    intro i h1 h2 _
    simp only [List.length_nil] at h2
    omega
  | cons p rest ih =>
    intro i h1 h2 hr
    by_cases hi : i < canonical
    · obtain ⟨v, hv⟩ := hr 0 (by simp) (by omega)
      simp only [List.getD_cons_zero] at hv
      rw [write_loop, if_pos hi, hv, except_bind_ok,
        ih (i + 1) (by omega) (by simp only [List.length_cons] at h2; omega)
          (fun j hj hcan => by
            have hs := hr (j + 1) (by simp only [List.length_cons]; omega) (by omega)
            simpa only [List.getD_cons_succ] using hs),
        except_bind_error]
    · rw [write_loop, if_neg hi]

lemma write_frame_long {α : Type} (raster : List (List α)) (canonical : ℕ)
    (curve : List (ℤ × ℤ)) (hlong : canonical < curve.length)
    (hreads : ∀ j, j < curve.length → j < canonical →
      ∃ v, np_get2 raster ((curve.getD j (0, 0)).2) ((curve.getD j (0, 0)).1) = .ok v) :
    write_frame raster canonical curve = .error .indexError := by
  rw [write_frame,
    write_loop_long raster canonical curve 0 (by omega) (by omega)
      (fun j hj hc => hreads j hj (by omega)),
    except_bind_error]

lemma line_slice_loop_first_error {α : Type} (raster_fn : ℤ → ℤ → ℤ → ℤ → List (ℤ × ℤ))
    (rasters : ℕ → List (List α)) (proj : ℕ → List (ℚ × ℚ)) (L : ℕ) :
    ∀ (j rem g : ℕ) (accPx : List (List (Option (ℤ × ℤ)))) (accInt : List (List (Option α))),
      j < rem →
      (∀ k, g ≤ k → k < g + j →
        ∃ c r, line_frame_curve raster_fn (proj k) = .ok c ∧
          write_frame (rasters k) L c = .ok r) →
      (∃ c, line_frame_curve raster_fn (proj (g + j)) = .ok c ∧
        write_frame (rasters (g + j)) L c = .error .indexError) →
      line_slice_loop raster_fn rasters proj rem g (some L) accPx accInt =
        .error .indexError := by
  intro j
  induction j with
  | zero =>
    intro rem g accPx accInt hrem hmid herr
    obtain ⟨rem2, rfl⟩ : ∃ rem2, rem = rem2 + 1 := ⟨rem - 1, by omega⟩
    obtain ⟨c, hc, hw⟩ := herr
    simp only [Nat.add_zero] at hc hw
    simp only [line_slice_loop, hc, except_bind_ok, Option.getD_some, hw, except_bind_error]
  | succ j ih =>
    intro rem g accPx accInt hrem hmid herr
    obtain ⟨rem2, rfl⟩ : ∃ rem2, rem = rem2 + 1 := ⟨rem - 1, by omega⟩
    obtain ⟨c, r, hc, hw⟩ := hmid g (le_refl g) (by omega)
    simp only [line_slice_loop, hc, except_bind_ok, Option.getD_some, hw]
    exact ih rem2 (g + 1) _ _ (by omega)
      (fun k hk1 hk2 => hmid k (by omega) (by omega))
      (by rw [show g + 1 + j = g + (j + 1) from by omega]; exact herr)

/-- C1: the claim that a later, longer per-frame curve is truncated to the
canonical width with a warning and processing continuing fails on the code;
what holds instead is that the canonical width is indeed fixed by the first
processed frame, but when a later frame produces a longer curve the builder
does not truncate: once the sample index reaches the canonical width the row
write raises an out-of-bounds `IndexError` which propagates, no warning is
raised, and the whole slice computation aborts with that error. -/
theorem C1_longer_curve_not_truncated {α : Type}
    (raster_fn : ℤ → ℤ → ℤ → ℤ → List (ℤ × ℤ)) (frame_n f : ℕ)
    (rasters : ℕ → List (List α)) (proj : ℕ → List (ℚ × ℚ))
    (c0 cf : List (ℤ × ℤ)) (r0 : List (Option (ℤ × ℤ)) × List (Option α))
    (hf0 : 0 < f) (hff : f < frame_n)
    (hc0 : line_frame_curve raster_fn (proj 0) = .ok c0)
    (hw0 : write_frame (rasters 0) c0.length c0 = .ok r0)
    (hmid : ∀ k, 0 < k → k < f →
      ∃ c r, line_frame_curve raster_fn (proj k) = .ok c ∧
        write_frame (rasters k) c0.length c = .ok r)
    (hcf : line_frame_curve raster_fn (proj f) = .ok cf)
    (hlong : c0.length < cf.length)
    (hreads : ∀ j, j < cf.length → j < c0.length →
      ∃ v, np_get2 (rasters f) ((cf.getD j (0, 0)).2) ((cf.getD j (0, 0)).1) = .ok v) :
    line_get_slice raster_fn frame_n rasters proj = .error .indexError := by
  obtain ⟨rem, rfl⟩ : ∃ rem, frame_n = rem + 1 := ⟨frame_n - 1, by omega⟩
  rw [line_get_slice]
  simp only [line_slice_loop, hc0, except_bind_ok, Option.getD_none, hw0, List.nil_append]
  exact line_slice_loop_first_error raster_fn rasters proj c0.length (f - 1) rem 1 _ _
    (by omega)
    (fun k hk1 hk2 => hmid k (by omega) (by omega))
    (by rw [show 1 + (f - 1) = f from by omega]
        exact ⟨cf, hcf, write_frame_long _ _ _ hlong hreads⟩)

theorem C1_truncation_counterexample :
    line_get_slice bresenham_line 2 (fun _ => [[(1 : ℕ), 2, 3, 4]])
      (fun k => if k = 0 then [((0 : ℚ), 0), (1, 0)] else [((0 : ℚ), 0), (3, 0)]) =
      .error .indexError := by
  decide

theorem C1_longer_curve_not_truncated_witness :
    line_get_slice bresenham_line 3 (fun _ => [[(1 : ℕ), 2, 3, 4]])
      (fun k => if k = 2 then [((0 : ℚ), 0), (3, 0)] else [((0 : ℚ), 0), (1, 0)]) =
      .error .indexError := by
  apply C1_longer_curve_not_truncated bresenham_line 3 2 _ _
    [(0, 0), (1, 0)] [(0, 0), (1, 0), (2, 0), (3, 0)]
    ([some (0, 0), some (0, 1)], [some 1, some 2])
    (by decide) (by decide)
  · decide
  · decide
  · intro k hk1 hk2
    have hk : k = 1 := by omega
    subst hk
    exact ⟨[(0, 0), (1, 0)], ([some (0, 0), some (0, 1)], [some 1, some 2]),
      by decide, by decide⟩
  · decide
  · decide
  · intro j hj hc
    have h2 : j < 2 := by simpa using hc
    interval_cases j
    · exact ⟨1, by decide⟩
    · exact ⟨2, by decide⟩
